import Mathlib

/-!
# Verification of the dossier.web result-stream pipeline

Shallow embedding of the result-stream processing code of `dossier.web`:
the reservoir sampler `streaming_sample` and index scanner
`plain_index_scan.streaming_ids` (`dossier/web/search_engines.py`), the
near-duplicate filter `nilsimsa_near_duplicates` and its helper
`get_string_counter` (`dossier/web/filter_preds.py`), the pairwise metric
`nilsimsa_max_similarity` (`dossier/metrics/pairwise.py`), and the
query-parameter clamp `str_to_max_int` (`dossier/web/routes.py`).

Python's runtime randomness is embedded as explicit oracle functions
(one for `random.random()` values, one for `random.randint` slot picks),
and Python exceptions (`ZeroDivisionError`, `TypeError`) as `Except`.
-/

namespace DossierWeb

/-! ## `streaming_sample` (dossier/web/search_engines.py, lines 97-123)

```python
def streaming_sample(seq, k, limit=None):
    if k is None:
        return list(seq)
    seq = iter(seq)
    if limit is not None:
        k = min(limit, k)
        limit -= k
    result = list(islice(seq, k))
    for count, x in enumerate(islice(seq, limit), len(result)):
        if rand.random() < (1.0 / count):
            result[rand.randint(0, k-1)] = x
    return result
```

The `rand.random()` call of the iteration at counter value `count` is
embedded as `rf count` (a rational in `[0,1)`), and the
`rand.randint(0, k-1)` call as `rs count`.  `1.0 / count` raises
`ZeroDivisionError` in Python when `count == 0`, so the loop body is
embedded in `Except`. -/

/-- The replacement loop of `streaming_sample`:
`for count, x in enumerate(islice(seq, limit), len(result))` with body
`if rand.random() < (1.0 / count): result[rand.randint(0, k-1)] = x`.
Arguments: remaining stream, current `count`, remaining `limit`, current
`result`. -/
def sampleLoop (rf : Nat → ℚ) (rs : Nat → Nat) :
    List α → Nat → Option Nat → List α → Except String (List α)
  | [], _, _, res => .ok res
  | _ :: _, _, some 0, res => .ok res
  | x :: rest, count, none, res =>
      if count = 0 then .error "ZeroDivisionError"
      else
        sampleLoop rf rs rest (count + 1) none
          (if rf count < 1 / (count : ℚ) then res.set (rs count) x else res)
  | x :: rest, count, some (n + 1), res =>
      if count = 0 then .error "ZeroDivisionError"
      else
        sampleLoop rf rs rest (count + 1) (some n)
          (if rf count < 1 / (count : ℚ) then res.set (rs count) x else res)

/-- `streaming_sample(seq, k, limit)`.  `k = none` is Python's `k is None`. -/
def streaming_sample (rf : Nat → ℚ) (rs : Nat → Nat) (seq : List α)
    (k : Option Nat) (limit : Option Nat) : Except String (List α) :=
  match k with
  | none => .ok seq
  | some k0 =>
      let k1 := match limit with
        | none => k0
        | some l => min l k0
      let limit1 : Option Nat := match limit with
        | none => none
        | some l => some (l - k1)
      let res := seq.take k1
      sampleLoop rf rs (seq.drop k1) res.length limit1 res

/-! ## Data model: feature collections and the store

A `FeatureCollection` maps feature names to values; the code
distinguishes `unicode` strings, `StringCounter`/`SparseVector` values
(of which it only ever reads the keys, a list of strings), and anything
else.  The store (`dossier.store.Store`) is consumed through
`index_names()`, `index_scan(name, val)` and `get(id)` only. -/

/-- A feature value as discriminated by the code's `isinstance` checks. -/
inductive FeatVal where
  | unicode (s : String)
  | counter (keys : List String)
  | other
deriving DecidableEq

/-- A feature collection: feature name to value (Python dict). -/
abbrev FC := List (String × FeatVal)

/-- `fc.get(name)` (`None` when absent). -/
def fcGet (fc : FC) (name : String) : Option FeatVal :=
  (fc.find? (fun p => p.1 == name)).map Prod.snd

/-- `name in fc`. -/
def fcHasKey (fc : FC) (name : String) : Bool :=
  fc.any (fun p => p.1 == name)

/-- The store interface consumed by the search engines and filters. -/
structure Store where
  index_names : List String
  index_scan : String → String → List String
  get : String → Option FC

/-- Embeds `dossier.fc.FeatureCollection.DISPLAY_PREFIX`, the
display-feature marker used throughout the repository (`'#'`, as in the
`'#nilsimsa_all'` feature of the tests). -/
def displayMarker : String := "#"

/-! ## `get_string_counter` and `nilsimsa_near_duplicates`
(dossier/web/filter_preds.py)

```python
def get_string_counter(fc, feature_name):
    if feature_name not in fc:
        feature = fc.get(FeatureCollection.DISPLAY_PREFIX + feature_name)
    else:
        feature = fc.get(feature_name)
    if isinstance(feature, StringCounter):
        return feature
    else:
        return None
```

The filter's accumulator is a Python dict from digest to content id,
embedded as an insertion-ordered association list with dict-assignment
(overwrite-in-place) semantics.  The external kernel
`nilsimsa.compare_digests(h1, h2, threshold=threshold)` is kept abstract
as a parameter `cmp : String → String → Int`.  Iterating over `None`
(a candidate or query without the digest `StringCounter`) raises
`TypeError` in Python, embedded as `Except.error "TypeError"`. -/

/-- `get_string_counter(fc, feature_name)`: the keys of the
`StringCounter` at `feature_name` or at `'#' + feature_name`, else
`None`. -/
def get_string_counter (fc : FC) (feature_name : String) :
    Option (List String) :=
  let feature :=
    if fcHasKey fc feature_name then fcGet fc feature_name
    else fcGet fc (displayMarker ++ feature_name)
  match feature with
  | some (.counter keys) => some keys
  | _ => none

/-- The accumulator: digest → contributing content id, a Python dict in
insertion order. -/
abbrev Acc := List (String × String)

/-- `nhash in accumulator`. -/
def accHasKey (acc : Acc) (d : String) : Bool :=
  acc.any (fun p => p.1 == d)

/-- `accumulator[nhash] = content_id` (dict assignment: overwrite the
existing entry in place, else append). -/
def accInsert (acc : Acc) (d v : String) : Acc :=
  if accHasKey acc d then acc.map (fun p => if p.1 == d then (d, v) else p)
  else acc ++ [(d, v)]

/-- Iterating over the accumulator yields its keys. -/
def accKeys (acc : Acc) : List String :=
  acc.map Prod.fst

/-- `init_filter(query_content_id)`: fetch the query's feature
collection (`store.get`), extract its digest `StringCounter`, and seed
the accumulator with `{digest -> query_content_id}`.  When `store.get`
returns `None`, `get_string_counter` evaluates `feature_name not in
None` and raises `TypeError`. -/
def init_filter (store : Store) (feature_name : String)
    (query_content_id : String) : Except String Acc :=
  match store.get query_content_id with
  | none => .error "TypeError"
  | some query_fc =>
      let hashes := match get_string_counter query_fc feature_name with
        | some keys => keys
        | none => []
      .ok (hashes.foldl (fun a h => accInsert a h query_content_id) [])

/-- The `for hash1, hash2 in product(sim_feature, accumulator)` loop with
early exit on `score > threshold`; also counts the number of
`nilsimsa.compare_digests` invocations performed.  Returns
`(rejected, comparisons)`. -/
def pairLoop (cmp : String → String → Int) (threshold : Int) :
    List (String × String) → Nat → Bool × Nat
  | [], n => (false, n)
  | (h1, h2) :: rest, n =>
      if cmp h1 h2 > threshold then (true, n + 1)
      else pairLoop cmp threshold rest (n + 1)

/-- `accumulating_predicate((content_id, fc))`: the stateful predicate of
`nilsimsa_near_duplicates`.  Returns `(decision, new accumulator, number
of kernel comparisons performed)`; iterating over a missing/non-counter
digest feature raises `TypeError`. -/
def accumulating_predicate (cmp : String → String → Int) (threshold : Int)
    (feature_name : String) (acc : Acc) (cand : String × FC) :
    Except String (Bool × Acc × Nat) :=
  match get_string_counter cand.2 feature_name with
  | none => .error "TypeError"
  | some hashes =>
      if hashes.any (fun h => accHasKey acc h) then
        .ok (false, acc, 0)
      else
        match pairLoop cmp threshold (hashes.product (accKeys acc)) 0 with
        | (true, n) => .ok (false, acc, n)
        | (false, n) =>
            .ok (true, hashes.foldl (fun a h => accInsert a h cand.1) acc, n)

/-- Driving the predicate over a candidate stream in order, collecting
the final accumulator and the ids of the candidates for which the
predicate returned `True`. -/
def processList (cmp : String → String → Int) (threshold : Int)
    (feature_name : String) :
    Acc → List (String × FC) → Except String (Acc × List String)
  | acc, [] => .ok (acc, [])
  | acc, c :: rest =>
      match accumulating_predicate cmp threshold feature_name acc c with
      | .error e => .error e
      | .ok r =>
          match processList cmp threshold feature_name r.2.1 rest with
          | .error e => .error e
          | .ok rest' =>
              .ok (rest'.1, if r.1 then c.1 :: rest'.2 else rest'.2)

/-! ## The nilsimsa kernel and `nilsimsa_max_similarity`
(dossier/metrics/pairwise.py, lines 15-40)

```python
@require_string_counters
def nilsimsa_max_similarity(f1, f2, threshold=None):
    if threshold is not None:
        _threshold = int(threshold * 128)
    scores = []
    for hash1, hash2 in product(f1.keys(), f2.keys()):
        score = nilsimsa.compare_digests(hash1, hash2)
        if score == 128: return 1.0
        scores.append(score)
    if not scores:
        return 0.0
    else:
        return max(scores) / 128
```

The `threshold` parameter only assigns a local that is never read (its
early-exit line is commented out), so it is dropped from the embedding.
The `require_string_counters` decorator resolves the two digest
`StringCounter` features (returning `0.` when either is missing or
empty); the embedding works directly on the two digest key lists. -/

/-- Value of one hexadecimal character. -/
def hexVal (c : Char) : Nat :=
  if '0' ≤ c ∧ c ≤ '9' then c.toNat - '0'.toNat
  else if 'a' ≤ c ∧ c ≤ 'f' then c.toNat - 'a'.toNat + 10
  else 0

/-- Number of set bits of a nibble. -/
def popcount4 (n : Nat) : Nat :=
  n % 2 + n / 2 % 2 + n / 4 % 2 + n / 8 % 2

/-- Number of differing bits between two hex digests, nibble by nibble. -/
def bit_difference (a b : String) : Nat :=
  ((a.toList.zip b.toList).map
    (fun p => popcount4 ((hexVal p.1) ^^^ (hexVal p.2)))).sum

/-- Modelled from the spec: the external `nilsimsa.compare_digests`
kernel (the `nilsimsa` library is not part of this repository).  Spec
§4.1: the score range is symmetric, historically `[-128, 128]` for a
256-bit digest (64 hex characters), with the maximum score denoting
bit-identical digests; the score is `128` minus the number of differing
digest bits. -/
def compare_digests (a b : String) : Int :=
  128 - bit_difference a b

/-- The scoring loop of `nilsimsa_max_similarity`: `none` means the
`return 1.0` early exit fired on a score of exactly `128`; otherwise the
collected score list is returned. -/
def maxSimLoop (cmp : String → String → Int) :
    List (String × String) → List Int → Option (List Int)
  | [], scores => some scores
  | (h1, h2) :: rest, scores =>
      if cmp h1 h2 = 128 then none
      else maxSimLoop cmp rest (scores ++ [cmp h1 h2])

/-- `nilsimsa_max_similarity(f1, f2)` on the two digest key lists, with
the kernel as a parameter.  `max(scores) / 128` is Python 3-style true
division (the module imports `division` from `__future__`). -/
def nilsimsa_max_similarity (cmp : String → String → Int)
    (f1 f2 : List String) : ℚ :=
  match maxSimLoop cmp (f1.product f2) [] with
  | none => 1
  | some [] => 0
  | some (s :: rest) => ((rest.foldl max s : Int) : ℚ) / 128

/-! ## `str_to_max_int` (dossier/web/routes.py, lines 588-592)

```python
def str_to_max_int(s, maximum):
    try:
        return min(maximum, int(s))
    except (ValueError, TypeError):
        return maximum
```

`v1_search` calls it as `str_to_max_int(request.query.get('limit'), 100)`,
so `s` is an optional string; `int(None)` raises `TypeError` and
`int(s)` on a non-numeric string raises `ValueError`, both caught. -/

/-- Decimal value of a digit run. -/
def digitsToNat (ds : List Char) : Nat :=
  ds.foldl (fun acc c => acc * 10 + (c.toNat - 48)) 0

/-- Python's `int(s)` on a string: optional surrounding whitespace, an
optional sign, then one or more decimal digits; anything else raises
`ValueError` (`none`). -/
def pyInt (s : String) : Option Int :=
  let t := ((s.toList.dropWhile Char.isWhitespace).reverse.dropWhile
    Char.isWhitespace).reverse
  match t with
  | '-' :: ds =>
      if ds ≠ [] ∧ ds.all Char.isDigit then some (-(digitsToNat ds : Int))
      else none
  | '+' :: ds =>
      if ds ≠ [] ∧ ds.all Char.isDigit then some ((digitsToNat ds : Int))
      else none
  | ds =>
      if ds ≠ [] ∧ ds.all Char.isDigit then some ((digitsToNat ds : Int))
      else none

/-- `str_to_max_int(s, maximum)`; `s = none` is an absent query
parameter. -/
def str_to_max_int (s : Option String) (maximum : Int) : Int :=
  match s with
  | none => maximum
  | some str =>
      match pyInt str with
      | none => maximum
      | some n => min maximum n

/-! ## `plain_index_scan.streaming_ids`
(dossier/web/search_engines.py, lines 68-94)

```python
def streaming_ids(self, content_id):
    def scan(idx_name, val):
        for cid in self.store.index_scan(idx_name, val):
            if cid not in cids and cid not in blacklist:
                cids.add(cid)
                yield cid

    query_fc = self.get_query_fc(content_id)
    if query_fc is None:
        return
    blacklist = set([content_id])
    cids = set()
    for idx_name in self.store.index_names():
        feat = query_fc.get(idx_name, None)
        if isinstance(feat, unicode):
            for cid in scan(idx_name, feat):
                yield cid
        elif isinstance(feat, (SparseVector, StringCounter)):
            for name in feat.iterkeys():
                for cid in scan(idx_name, name):
                    yield cid
```
-/

/-- The `(idx_name, value)` scan requests issued by `streaming_ids`, in
issue order: one per unicode-valued index feature, one per key of a
counter-valued index feature. -/
def scanSpecs (store : Store) (query_fc : FC) : List (String × String) :=
  store.index_names.flatMap (fun idx_name =>
    match fcGet query_fc idx_name with
    | some (.unicode s) => [(idx_name, s)]
    | some (.counter keys) => keys.map (fun name => (idx_name, name))
    | _ => [])

/-- The per-cid body of `scan`: state is `(cids, emitted)`; a cid not in
`cids` and not in the blacklist is added to `cids` and yielded. -/
def emitStep (blacklist : List String) (st : List String × List String)
    (cid : String) : List String × List String :=
  if cid ∈ st.1 ∨ cid ∈ blacklist then st
  else (cid :: st.1, st.2 ++ [cid])

/-- `plain_index_scan.streaming_ids(content_id)`: the full sequence of
candidate ids the generator yields. -/
def streaming_ids (store : Store) (content_id : String) : List String :=
  match store.get content_id with
  | none => []
  | some query_fc =>
      let all := (scanSpecs store query_fc).flatMap
        (fun p => store.index_scan p.1 p.2)
      (all.foldl (emitStep [content_id]) ([], [])).2

/-! ## Concrete fixtures used by closed witness and counterexample
theorems. -/

/-- A store holding no feature collections at all. -/
def storeEmpty : Store :=
  { index_names := [], index_scan := fun _ _ => [], get := fun _ => none }

/-- A store whose query `"q"` carries the digest feature `["aaaa"]`. -/
def storeQ : Store :=
  { index_names := [], index_scan := fun _ _ => [],
    get := fun cid =>
      if cid == "q" then some [("nilsimsa_all", FeatVal.counter ["aaaa"])]
      else none }

/-- A store whose query `"q"` has a feature collection but no digest
feature. -/
def storeNoFeat : Store :=
  { index_names := [], index_scan := fun _ _ => [],
    get := fun cid =>
      if cid == "q" then some [("NAME", FeatVal.unicode "bob")]
      else none }

/-- A candidate feature collection with the single digest `"d1"`. -/
def fcD1 : FC := [("nilsimsa_all", FeatVal.counter ["d1"])]

/-- A candidate feature collection with no digest feature. -/
def fcNoDigest : FC := [("foo", FeatVal.unicode "bar")]

/-- A 64-character all-zero hex digest. -/
def d0hex : String :=
  "0000000000000000000000000000000000000000000000000000000000000000"

/-- A 64-character all-f hex digest (every bit differs from `d0hex`). -/
def d1hex : String :=
  "ffffffffffffffffffffffffffffffffffffffffffffffffffffffffffffffff"

end DossierWeb

namespace DossierWeb

/-- The loop never raises once the counter is positive: the counter only
grows, and `1.0 / count` is the sole failing operation. -/
theorem sampleLoop_ok_of_pos (rf : Nat → ℚ) (rs : Nat → Nat)
    (stream : List α) :
    ∀ (count : Nat) (lim : Option Nat) (res : List α), 1 ≤ count →
      ∃ out, sampleLoop rf rs stream count lim res = .ok out := by
  induction stream with
  | nil =>
      intro count lim res _
      exact ⟨res, rfl⟩
  | cons x rest ih =>
      intro count lim res hc
      match lim with
      | some 0 => exact ⟨res, rfl⟩
      | none =>
          have hcz : ¬ count = 0 := by omega
          have := ih (count + 1) none
            (if rf count < 1 / (count : ℚ) then res.set (rs count) x else res)
            (by omega)
          simpa [sampleLoop, hcz] using this
      | some (n + 1) =>
          have hcz : ¬ count = 0 := by omega
          have := ih (count + 1) (some n)
            (if rf count < 1 / (count : ℚ) then res.set (rs count) x else res)
            (by omega)
          simpa [sampleLoop, hcz] using this

/-- C7: `streaming_sample` returns the entire input stream when no sampling
is needed: with `k = none` the result is `list(seq)` unchanged, and for a
finite stream of length `M` with `k ≥ M` and no limit smaller than `M`,
the output is exactly the `M` stream elements (here: the stream itself,
so nothing omitted and nothing repeated). -/
theorem streaming_sample_whole_stream (rf : Nat → ℚ) (rs : Nat → Nat) :
    (∀ (seq : List α) (lim : Option Nat),
        streaming_sample rf rs seq none lim = .ok seq) ∧
    (∀ (seq : List α) (k : Nat) (lim : Option Nat),
        seq.length ≤ k →
        (lim = none ∨ ∃ l, lim = some l ∧ seq.length ≤ l) →
        streaming_sample rf rs seq (some k) lim = .ok seq) := by
  constructor
  · intro seq lim
    rfl
  · intro seq k lim hk hlim
    rcases hlim with rfl | ⟨l, rfl, hl⟩
    · have htake : seq.take k = seq := List.take_of_length_le hk
      have hdrop : seq.drop k = [] := List.drop_eq_nil_of_le hk
      simp [streaming_sample, htake, hdrop, sampleLoop]
    · have hk1 : seq.length ≤ min l k := le_min hl hk
      have htake : seq.take (min l k) = seq := List.take_of_length_le hk1
      have hdrop : seq.drop (min l k) = [] := List.drop_eq_nil_of_le hk1
      simp [streaming_sample, htake, hdrop, sampleLoop]

/-- Closed witness for `streaming_sample_whole_stream`. -/
theorem streaming_sample_whole_stream_witness :
    streaming_sample (fun _ => (1 : ℚ) / 2) (fun _ => 0) [10, 20, 30]
        (some 5) (some 7) = .ok [10, 20, 30] :=
  (streaming_sample_whole_stream (fun _ => (1 : ℚ) / 2) (fun _ => 0)).2
    [10, 20, 30] 5 (some 7) (by decide) (Or.inr ⟨7, rfl, by decide⟩)

/-- C9: with `k = 0` and a non-empty stream (limit `none` or ≥ 1) the
function evaluates `1.0 / count` with `count = 0` on the first loop item
and raises `ZeroDivisionError`; with `k ≥ 1` the divisor is positive
throughout and the function always returns a result. -/
theorem streaming_sample_zero_k_raises (rf : Nat → ℚ) (rs : Nat → Nat) :
    (∀ (x : α) (rest : List α) (lim : Option Nat),
        (lim = none ∨ ∃ l, lim = some l ∧ 1 ≤ l) →
        streaming_sample rf rs (x :: rest) (some 0) lim =
          .error "ZeroDivisionError") ∧
    (∀ (seq : List α) (k : Nat) (lim : Option Nat), 1 ≤ k →
        ∃ out, streaming_sample rf rs seq (some k) lim = .ok out) := by
  constructor
  · intro x rest lim hlim
    rcases hlim with rfl | ⟨l, rfl, hl⟩
    · simp [streaming_sample, sampleLoop]
    · obtain ⟨n, rfl⟩ : ∃ n, l = n + 1 := ⟨l - 1, by omega⟩
      simp [streaming_sample, sampleLoop]
  · intro seq k lim hk
    match lim with
    | none =>
        match seq with
        | [] => exact ⟨[], by simp [streaming_sample, sampleLoop]⟩
        | y :: ys =>
            have hcount : 1 ≤ ((y :: ys).take k).length := by
              simp only [List.length_take, List.length_cons]
              omega
            obtain ⟨out, hout⟩ :=
              sampleLoop_ok_of_pos rf rs ((y :: ys).drop k)
                ((y :: ys).take k).length none ((y :: ys).take k) hcount
            exact ⟨out, by simpa [streaming_sample] using hout⟩
    | some 0 =>
        match seq with
        | [] => exact ⟨[], by simp [streaming_sample, sampleLoop]⟩
        | y :: ys => exact ⟨[], by simp [streaming_sample, sampleLoop]⟩
    | some (l + 1) =>
        match seq with
        | [] => exact ⟨[], by simp [streaming_sample, sampleLoop]⟩
        | y :: ys =>
            have hcount : 1 ≤ ((y :: ys).take (min (l + 1) k)).length := by
              simp only [List.length_take, List.length_cons]
              omega
            obtain ⟨out, hout⟩ :=
              sampleLoop_ok_of_pos rf rs ((y :: ys).drop (min (l + 1) k))
                ((y :: ys).take (min (l + 1) k)).length
                (some (l + 1 - min (l + 1) k)) ((y :: ys).take (min (l + 1) k))
                hcount
            exact ⟨out, by simpa [streaming_sample] using hout⟩

/-- Closed witness for `streaming_sample_zero_k_raises`. -/
theorem streaming_sample_zero_k_raises_witness :
    streaming_sample (fun _ => (1 : ℚ) / 2) (fun _ => 0) [10]
        (some 0) none = .error "ZeroDivisionError" ∧
    ∃ out, streaming_sample (fun _ => (1 : ℚ) / 2) (fun _ => 0) [10, 20]
        (some 1) none = .ok out :=
  ⟨(streaming_sample_zero_k_raises (fun _ => (1 : ℚ) / 2) (fun _ => 0)).1
      10 [] none (Or.inl rfl),
   (streaming_sample_zero_k_raises (fun _ => (1 : ℚ) / 2) (fun _ => 0)).2
      [10, 20] 1 none (by decide)⟩

/-- C1 (divergence): for `k = 1` and the two-element stream `[a, b]`, every
admissible run of the code (any `rand.random()` values in `[0,1)`, and the
forced `rand.randint(0, 0) = 0` slot pick) replaces `a` by `b`: the loop
tests `rand.random() < 1.0 / count` with `count` starting at
`len(result) = k = 1`, so the second stream item replaces the reservoir
with probability `1/1 = 1` instead of the claimed `k/i = 1/2`.  The
output is deterministically `[b]`, so the reservoir is not a uniform
sample of the scanned prefix. -/
theorem streaming_sample_k1_not_uniform (rf : Nat → ℚ) (rs : Nat → Nat)
    (hrange : ∀ i, 0 ≤ rf i ∧ rf i < 1) (hslot : rs 1 = 0) (a b : α) :
    streaming_sample rf rs [a, b] (some 1) none = .ok [b] := by
  have h1 : rf 1 < 1 := (hrange 1).2
  simp [streaming_sample, sampleLoop, h1, hslot]

/-- Closed witness for `streaming_sample_k1_not_uniform`. -/
theorem streaming_sample_k1_not_uniform_witness :
    streaming_sample (fun _ => (0 : ℚ)) (fun _ => 0) [10, 20]
        (some 1) none = .ok [20] :=
  streaming_sample_k1_not_uniform (fun _ => (0 : ℚ)) (fun _ => 0)
    (fun _ => ⟨le_rfl, zero_lt_one⟩) rfl 10 20

/-- Dict assignment adds no foreign entries: every entry of
`accInsert acc d v` is an entry of `acc` or is `(d, v)`. -/
theorem mem_accInsert {acc : Acc} {d v : String} {p : String × String}
    (hp : p ∈ accInsert acc d v) : p ∈ acc ∨ p = (d, v) := by
  unfold accInsert at hp
  split at hp
  · rw [List.mem_map] at hp
    rcases hp with ⟨q, hq, rfl⟩
    split
    · right; rfl
    · left; exact hq
  · rcases List.mem_append.mp hp with h | h
    · left; exact h
    · right; simpa using h

/-- Inserting a digest set for one contributor `v` adds only entries
valued `v`. -/
theorem mem_foldl_accInsert {v : String} :
    ∀ (hs : List String) (acc : Acc) (p : String × String),
      p ∈ hs.foldl (fun a h => accInsert a h v) acc → p ∈ acc ∨ p.2 = v := by
  intro hs
  induction hs with
  | nil =>
      intro acc p hp
      exact Or.inl hp
  | cons h t ih =>
      intro acc p hp
      rcases ih (accInsert acc h v) p hp with hin | hv
      · rcases mem_accInsert hin with h1 | h1
        · exact Or.inl h1
        · right; rw [h1]
      · exact Or.inr hv

/-- The seeded accumulator maps every digest to the query id. -/
theorem init_filter_values {store : Store} {fname qid : String} {acc : Acc}
    (h : init_filter store fname qid = .ok acc) :
    ∀ p ∈ acc, p.2 = qid := by
  unfold init_filter at h
  split at h
  · exact absurd h (by simp)
  · simp only [Except.ok.injEq] at h
    intro p hp
    rw [← h] at hp
    rcases mem_foldl_accInsert _ [] p hp with h1 | h1
    · exact absurd h1 (List.not_mem_nil p)
    · exact h1

/-- One predicate evaluation adds accumulator entries only for the
evaluated candidate, and only when it returns `True`. -/
theorem accumulating_predicate_values {cmp : String → String → Int}
    {thr : Int} {fname : String} {acc : Acc} {cand : String × FC}
    {r : Bool × Acc × Nat}
    (h : accumulating_predicate cmp thr fname acc cand = .ok r) :
    ∀ p ∈ r.2.1, p ∈ acc ∨ (r.1 = true ∧ p.2 = cand.1) := by
  unfold accumulating_predicate at h
  split at h
  · exact absurd h (by simp)
  · split at h
    · simp only [Except.ok.injEq] at h
      rw [← h]
      intro p hp
      exact Or.inl hp
    · split at h
      · simp only [Except.ok.injEq] at h
        rw [← h]
        intro p hp
        exact Or.inl hp
      · simp only [Except.ok.injEq] at h
        rw [← h]
        intro p hp
        rcases mem_foldl_accInsert _ acc p hp with h1 | h1
        · exact Or.inl h1
        · exact Or.inr ⟨rfl, h1⟩

/-- Across a whole run, accumulator entries come from the initial
accumulator or from candidates the predicate accepted. -/
theorem processList_values (cmp : String → String → Int) (thr : Int)
    (fname : String) :
    ∀ (cands : List (String × FC)) (acc accF : Acc) (kept : List String),
      processList cmp thr fname acc cands = .ok (accF, kept) →
      ∀ p ∈ accF, p ∈ acc ∨ p.2 ∈ kept := by
  intro cands
  induction cands with
  | nil =>
      intro acc accF kept h p hp
      simp only [processList, Except.ok.injEq, Prod.mk.injEq] at h
      rw [← h.1] at hp
      exact Or.inl hp
  | cons c rest ih =>
      intro acc accF kept h p hp
      unfold processList at h
      split at h
      · exact absurd h (by simp)
      · rename_i r hstep
        split at h
        · exact absurd h (by simp)
        · rename_i rest' hrest
          simp only [Except.ok.injEq, Prod.mk.injEq] at h
          obtain ⟨haccF, hkept⟩ := h
          rw [← haccF] at hp
          rcases ih r.2.1 rest'.1 rest'.2 hrest p hp with h1 | h1
          · rcases accumulating_predicate_values hstep p h1 with h2 | h2
            · exact Or.inl h2
            · right
              rw [← hkept, h2.1]
              simp [h2.2]
          · right
            rw [← hkept]
            cases hr : r.1 <;> simp [h1]

/-- C5: whenever the accumulating predicate returns `False` the
accumulator is left unchanged, and on the exact-match fast path (some
candidate digest already a key of the accumulator) no pairwise kernel
comparison is performed. -/
theorem predicate_false_no_mutation
    (cmp : String → String → Int) (thr : Int) (fname : String)
    (acc : Acc) (cand : String × FC) (acc' : Acc) (n : Nat)
    (h : accumulating_predicate cmp thr fname acc cand =
      .ok (false, acc', n)) :
    acc' = acc ∧
    (∀ hs, get_string_counter cand.2 fname = some hs →
        hs.any (fun d => accHasKey acc d) = true → n = 0) := by
  unfold accumulating_predicate at h
  split at h
  · exact absurd h (by simp)
  · rename_i hs0 hg0
    split at h
    · simp only [Except.ok.injEq, Prod.mk.injEq] at h
      obtain ⟨_, hacc, hn⟩ := h
      exact ⟨hacc.symm, fun _ _ _ => hn.symm⟩
    · rename_i hnofast
      split at h
      · simp only [Except.ok.injEq, Prod.mk.injEq] at h
        obtain ⟨_, hacc, hn⟩ := h
        refine ⟨hacc.symm, fun hs hgs hany => ?_⟩
        rw [hg0] at hgs
        simp only [Option.some.injEq] at hgs
        rw [hgs] at hnofast
        exact absurd hany hnofast
      · simp at h

/-- Closed witness for `predicate_false_no_mutation`: an exact duplicate
of an accumulated digest is rejected without mutation and without any
kernel comparison. -/
theorem predicate_false_no_mutation_witness :
    [("d1", "c1")] = [("d1", "c1")] ∧
    (∀ hs, get_string_counter fcD1 "nilsimsa_all" = some hs →
        hs.any (fun d => accHasKey [("d1", "c1")] d) = true → 0 = 0) :=
  predicate_false_no_mutation compare_digests 119 "nilsimsa_all"
    [("d1", "c1")] ("c2", fcD1) [("d1", "c1")] 0 rfl

/-- C6: after any run of the filter, every accumulator entry maps its
digest either to the query id (seeded by `init_filter`) or to the id of
a candidate for which the predicate returned `True`; since every prefix
of a candidate stream is itself a run, this holds at every point during
one filter invocation, and digests of rejected candidates are never
inserted. -/
theorem accumulator_entries_query_or_kept
    (cmp : String → String → Int) (thr : Int) (fname : String)
    (store : Store) (qid : String) (acc₀ accF : Acc)
    (cands : List (String × FC)) (kept : List String)
    (hinit : init_filter store fname qid = .ok acc₀)
    (hrun : processList cmp thr fname acc₀ cands = .ok (accF, kept)) :
    ∀ p ∈ accF, p.2 = qid ∨ p.2 ∈ kept := by
  intro p hp
  rcases processList_values cmp thr fname cands acc₀ accF kept hrun p hp
    with h | h
  · exact Or.inl (init_filter_values hinit p h)
  · exact Or.inr h

/-- Closed witness for `accumulator_entries_query_or_kept`: the query
seeds `"aaaa" -> "q"`, the near-duplicate candidate `"c1"` is rejected
(nilsimsa score 122 > 119), and the final accumulator maps only to the
query id. -/
theorem accumulator_entries_query_or_kept_witness :
    ("aaaa", "q").2 = "q" ∨ ("aaaa", "q").2 ∈ ([] : List String) :=
  accumulator_entries_query_or_kept compare_digests 119 "nilsimsa_all"
    storeQ "q" [("aaaa", "q")] [("aaaa", "q")] [("c1", fcD1)] [] rfl rfl
    ("aaaa", "q") (List.mem_singleton_self _)

/-- C2 is false on the code: with no feature collection stored for the
query id, `init_filter` evaluates `feature_name not in None` and raises
`TypeError`; and for a candidate whose digest sub-feature is missing or
not a `StringCounter`, the predicate iterates over `None` and raises
`TypeError`. -/
theorem near_dup_missing_raises_ce :
    init_filter storeEmpty "nilsimsa_all" "q" = .error "TypeError" ∧
    accumulating_predicate compare_digests 119 "nilsimsa_all" []
      ("c1", fcNoDigest) = .error "TypeError" :=
  ⟨rfl, rfl⟩

/-- C2 amended: the near-duplicate filter raises `TypeError` exactly on
missing digest data — `init_filter` when the store has no feature
collection for the query id, the predicate when a candidate's digest
sub-feature is missing or not a `StringCounter` — and completes without
throwing in every other case (in particular a present query feature
collection without the digest feature is fine). -/
theorem near_dup_missing_data_behavior
    (cmp : String → String → Int) (thr : Int) (fname : String) :
    (∀ (store : Store) (qid : String), store.get qid = none →
        init_filter store fname qid = .error "TypeError") ∧
    (∀ (store : Store) (qid : String) (fc : FC), store.get qid = some fc →
        ∃ acc, init_filter store fname qid = .ok acc) ∧
    (∀ (acc : Acc) (cand : String × FC),
        get_string_counter cand.2 fname = none →
        accumulating_predicate cmp thr fname acc cand =
          .error "TypeError") ∧
    (∀ (acc : Acc) (cand : String × FC) (hs : List String),
        get_string_counter cand.2 fname = some hs →
        ∃ r, accumulating_predicate cmp thr fname acc cand = .ok r) := by
  refine ⟨?_, ?_, ?_, ?_⟩
  · intro store qid hget
    unfold init_filter
    rw [hget]
  · intro store qid fc hget
    unfold init_filter
    rw [hget]
    exact ⟨_, rfl⟩
  · intro acc cand hgs
    unfold accumulating_predicate
    rw [hgs]
  · intro acc cand hs hgs
    unfold accumulating_predicate
    rw [hgs]
    by_cases hany : hs.any (fun h => accHasKey acc h) = true
    · exact ⟨(false, acc, 0), by simp [hany]⟩
    · match hpr : pairLoop cmp thr (hs.product (accKeys acc)) 0 with
      | (true, n) => exact ⟨(false, acc, n), by simp [hany, hpr]⟩
      | (false, n) =>
          exact ⟨(true, hs.foldl (fun a h => accInsert a h cand.1) acc, n),
            by simp [hany, hpr]⟩

/-- Closed witness for `near_dup_missing_data_behavior`. -/
theorem near_dup_missing_data_behavior_witness :
    init_filter storeEmpty "nilsimsa_all" "nope" = .error "TypeError" ∧
    (∃ acc, init_filter storeQ "nilsimsa_all" "q" = .ok acc) ∧
    accumulating_predicate compare_digests 119 "nilsimsa_all" []
      ("c1", fcNoDigest) = .error "TypeError" ∧
    (∃ r, accumulating_predicate compare_digests 119 "nilsimsa_all" []
      ("c1", fcD1) = .ok r) :=
  ⟨(near_dup_missing_data_behavior compare_digests 119 "nilsimsa_all").1
      storeEmpty "nope" rfl,
   (near_dup_missing_data_behavior compare_digests 119 "nilsimsa_all").2.1
      storeQ "q" [("nilsimsa_all", FeatVal.counter ["aaaa"])] rfl,
   (near_dup_missing_data_behavior compare_digests 119 "nilsimsa_all").2.2.1
      [] ("c1", fcNoDigest) rfl,
   (near_dup_missing_data_behavior compare_digests 119 "nilsimsa_all").2.2.2
      [] ("c1", fcD1) ["d1"] rfl⟩

/-- C3 is false on the code: when the query carries no digest feature the
accumulator is seeded empty, but the predicate neither passes everything
nor rejects everything — on the stream `[("c1", {d1}), ("c2", {d1})]` it
accepts `"c1"` (refuting reject-all) and rejects `"c2"` as a duplicate
of `"c1"` (refuting pass-all). -/
theorem no_digest_policy_ce :
    init_filter storeNoFeat "nilsimsa_all" "q" = .ok [] ∧
    accumulating_predicate compare_digests 119 "nilsimsa_all" []
      ("c1", fcD1) = .ok (true, [("d1", "c1")], 0) ∧
    accumulating_predicate compare_digests 119 "nilsimsa_all"
      [("d1", "c1")] ("c2", fcD1) = .ok (false, [("d1", "c1")], 0) :=
  ⟨rfl, rfl, rfl⟩

/-- C3 amended: when the query carries no digest feature the predicate
follows neither blanket policy; it starts from an empty accumulator and
still filters candidates against previously accepted ones: every
digest-bearing candidate evaluated against the empty accumulator is
accepted (with no kernel comparison), and a candidate sharing a digest
with the accumulator is rejected. -/
theorem no_digest_query_still_filters
    (cmp : String → String → Int) (thr : Int) (fname : String) :
    (∀ (store : Store) (qid : String) (fc : FC), store.get qid = some fc →
        get_string_counter fc fname = none →
        init_filter store fname qid = .ok []) ∧
    (∀ (cand : String × FC) (hs : List String),
        get_string_counter cand.2 fname = some hs →
        ∃ acc', accumulating_predicate cmp thr fname [] cand =
          .ok (true, acc', 0)) ∧
    (∀ (acc : Acc) (cand : String × FC) (hs : List String),
        get_string_counter cand.2 fname = some hs →
        hs.any (fun d => accHasKey acc d) = true →
        accumulating_predicate cmp thr fname acc cand =
          .ok (false, acc, 0)) := by
  refine ⟨?_, ?_, ?_⟩
  · intro store qid fc hget hgs
    simp [init_filter, hget, hgs]
  · intro cand hs hgs
    have hany : hs.any (fun h => accHasKey [] h) = false := by
      simp [accHasKey]
    have hprod : hs.product (accKeys ([] : Acc)) = [] := by
      simp [accKeys, List.product]
    refine ⟨hs.foldl (fun a h => accInsert a h cand.1) [], ?_⟩
    unfold accumulating_predicate
    rw [hgs]
    simp [hany, hprod, pairLoop]
  · intro acc cand hs hgs hany
    unfold accumulating_predicate
    rw [hgs]
    simp [hany]

/-- Closed witness for `no_digest_query_still_filters`. -/
theorem no_digest_query_still_filters_witness :
    init_filter storeNoFeat "nilsimsa_all" "q" = .ok [] ∧
    (∃ acc', accumulating_predicate compare_digests 119 "nilsimsa_all" []
        ("c1", fcD1) = .ok (true, acc', 0)) ∧
    accumulating_predicate compare_digests 119 "nilsimsa_all"
      [("d1", "c1")] ("c2", fcD1) = .ok (false, [("d1", "c1")], 0) :=
  ⟨(no_digest_query_still_filters compare_digests 119 "nilsimsa_all").1
      storeNoFeat "q" [("NAME", FeatVal.unicode "bob")] rfl rfl,
   (no_digest_query_still_filters compare_digests 119 "nilsimsa_all").2.1
      ("c1", fcD1) ["d1"] rfl,
   (no_digest_query_still_filters compare_digests 119 "nilsimsa_all").2.2
      [("d1", "c1")] ("c2", fcD1) ["d1"] rfl (by decide)⟩

/-- A nibble has at most four set bits. -/
theorem popcount4_le (n : Nat) : popcount4 n ≤ 4 := by
  unfold popcount4
  omega

/-- A digest differs from itself in no bit. -/
theorem bit_difference_self (a : String) : bit_difference a a = 0 := by
  unfold bit_difference
  generalize a.toList = l
  induction l with
  | nil => rfl
  | cons c t ih =>
      simp only [List.zip_cons_cons, List.map_cons, List.sum_cons, ih,
        Nat.xor_self]
      rfl

/-- The modelled kernel gives the maximum score on identical digests. -/
theorem compare_digests_self (a : String) : compare_digests a a = 128 := by
  unfold compare_digests
  rw [bit_difference_self]
  rfl

/-- Scores never exceed 128. -/
theorem compare_digests_le (a b : String) : compare_digests a b ≤ 128 := by
  unfold compare_digests
  omega

/-- At most four differing bits per character position. -/
theorem bit_difference_le (a b : String) :
    bit_difference a b ≤ 4 * a.length := by
  unfold bit_difference
  have h1 : ∀ x ∈ (a.toList.zip b.toList).map
      (fun p => popcount4 ((hexVal p.1) ^^^ (hexVal p.2))), x ≤ 4 := by
    intro x hx
    rw [List.mem_map] at hx
    rcases hx with ⟨p, _, rfl⟩
    exact popcount4_le _
  have h2 := List.sum_le_card_nsmul _ 4 h1
  rw [smul_eq_mul, List.length_map, List.length_zip] at h2
  have h3 : a.toList.length = a.length := rfl
  omega

/-- Scores of digests of at most 64 hex characters are at least -128. -/
theorem compare_digests_ge (a b : String) (h : a.length ≤ 64) :
    -128 ≤ compare_digests a b := by
  unfold compare_digests
  have h1 := bit_difference_le a b
  omega

/-- If any pair scores exactly 128, the scoring loop early-exits. -/
theorem maxSimLoop_none_of_exact (cmp : String → String → Int) :
    ∀ (pairs : List (String × String)) (scores0 : List Int),
      (∃ p ∈ pairs, cmp p.1 p.2 = 128) →
      maxSimLoop cmp pairs scores0 = none := by
  intro pairs
  induction pairs with
  | nil =>
      intro scores0 h
      rcases h with ⟨p, hp, _⟩
      exact absurd hp (List.not_mem_nil p)
  | cons p0 rest ih =>
      intro scores0 h
      obtain ⟨h1, h2⟩ := p0
      by_cases hc : cmp h1 h2 = 128
      · simp [maxSimLoop, hc]
      · rcases h with ⟨p, hp, hs⟩
        rcases List.mem_cons.mp hp with rfl | hmem
        · exact absurd hs hc
        · simp only [maxSimLoop, hc, if_neg]
          exact ih _ ⟨p, hmem, hs⟩

/-- Every collected score is an inherited one or the kernel score of one
of the scanned pairs. -/
theorem maxSimLoop_scores (cmp : String → String → Int) :
    ∀ (pairs : List (String × String)) (scores0 scores : List Int),
      maxSimLoop cmp pairs scores0 = some scores →
      ∀ s ∈ scores, s ∈ scores0 ∨ ∃ p ∈ pairs, s = cmp p.1 p.2 := by
  intro pairs
  induction pairs with
  | nil =>
      intro scores0 scores h s hs
      simp only [maxSimLoop, Option.some.injEq] at h
      rw [← h] at hs
      exact Or.inl hs
  | cons p0 rest ih =>
      intro scores0 scores h s hs
      obtain ⟨h1, h2⟩ := p0
      by_cases hc : cmp h1 h2 = 128
      · simp [maxSimLoop, hc] at h
      · simp only [maxSimLoop, hc, if_neg] at h
        rcases ih _ _ h s hs with h3 | ⟨p, hp, hps⟩
        · rcases List.mem_append.mp h3 with h4 | h4
          · exact Or.inl h4
          · right
            refine ⟨(h1, h2), List.mem_cons_self _ _, ?_⟩
            simpa using h4
        · exact Or.inr ⟨p, List.mem_cons_of_mem _ hp, hps⟩

/-- Folding `max` over a list yields the seed or one of its elements. -/
theorem foldl_max_mem : ∀ (l : List Int) (s : Int), l.foldl max s ∈ s :: l := by
  intro l
  induction l with
  | nil =>
      intro s
      simp
  | cons a t ih =>
      intro s
      simp only [List.foldl_cons]
      rcases List.mem_cons.mp (ih (max s a)) with h1 | h1
      · rcases max_choice s a with h | h <;> rw [h] at h1 ⊢ <;> simp [h1]
      · simp [List.mem_cons_of_mem, h1]

/-- C4 is false on the code: for two maximally dissimilar 64-character
digests the one pairwise score is -128, so the result -128/128 = -1 is
negative, outside the claimed range [0,1]. -/
theorem nilsimsa_max_similarity_negative_ce :
    nilsimsa_max_similarity compare_digests [d0hex] [d1hex] < 0 := by
  have hc : compare_digests d0hex d1hex = -128 := by decide
  have hml : maxSimLoop compare_digests ([d0hex].product [d1hex]) [] =
      some [-128] := by
    simp [List.product, maxSimLoop, hc]
  simp only [nilsimsa_max_similarity, hml]
  norm_num

/-- C4 amended: `nilsimsa_max_similarity` is the maximum pairwise kernel
score over the Cartesian product of the two digest sets divided by 128,
a value in [-1, 1] (not [0, 1]: dissimilar digests score below 0); it
returns 0 when either set is empty, and returns 1.0 immediately (early
exit) upon finding a bit-identical pair. -/
theorem nilsimsa_max_similarity_props (f1 f2 : List String)
    (hlen : ∀ d ∈ f1, d.length ≤ 64) :
    (-1 ≤ nilsimsa_max_similarity compare_digests f1 f2 ∧
      nilsimsa_max_similarity compare_digests f1 f2 ≤ 1) ∧
    (f1 = [] ∨ f2 = [] →
      nilsimsa_max_similarity compare_digests f1 f2 = 0) ∧
    (∀ d ∈ f1, d ∈ f2 →
      nilsimsa_max_similarity compare_digests f1 f2 = 1) := by
  refine ⟨?_, ?_, ?_⟩
  · cases hml : maxSimLoop compare_digests (f1.product f2) [] with
    | none =>
        simp only [nilsimsa_max_similarity, hml]
        norm_num
    | some scores =>
        cases scores with
        | nil =>
            simp only [nilsimsa_max_similarity, hml]
            norm_num
        | cons s rest =>
            have hprop := maxSimLoop_scores compare_digests
              (f1.product f2) [] (s :: rest) hml
            have hbound : ∀ x ∈ s :: rest, -128 ≤ x ∧ x ≤ 128 := by
              intro x hx
              rcases hprop x hx with h0 | ⟨p, hp, rfl⟩
              · exact absurd h0 (List.not_mem_nil x)
              · obtain ⟨a, b⟩ := p
                have hab := List.mem_product.mp hp
                exact ⟨compare_digests_ge a b (hlen a hab.1),
                  compare_digests_le a b⟩
            obtain ⟨hl, hr⟩ := hbound _ (foldl_max_mem rest s)
            simp only [nilsimsa_max_similarity, hml]
            constructor
            · rw [le_div_iff₀ (by norm_num : (0 : ℚ) < 128)]
              have hl' : ((-128 : ℤ) : ℚ) ≤ ((rest.foldl max s : ℤ) : ℚ) :=
                Int.cast_le.mpr hl
              push_cast at hl'
              linarith
            · rw [div_le_one (by norm_num : (0 : ℚ) < 128)]
              have hr' : ((rest.foldl max s : ℤ) : ℚ) ≤ ((128 : ℤ) : ℚ) :=
                Int.cast_le.mpr hr
              push_cast at hr'
              linarith
  · rintro (rfl | rfl)
    · simp [nilsimsa_max_similarity, List.product, maxSimLoop]
    · have hp : f1.product ([] : List String) = [] := by
        simp [List.product]
      simp [nilsimsa_max_similarity, hp, maxSimLoop]
  · intro d hd1 hd2
    have hex : maxSimLoop compare_digests (f1.product f2) [] = none :=
      maxSimLoop_none_of_exact compare_digests _ _
        ⟨(d, d), List.mem_product.mpr ⟨hd1, hd2⟩, compare_digests_self d⟩
    simp [nilsimsa_max_similarity, hex]

/-- Closed witness for `nilsimsa_max_similarity_props`. -/
theorem nilsimsa_max_similarity_props_witness :
    (-1 ≤ nilsimsa_max_similarity compare_digests ["aaaa"] ["bbbb"] ∧
      nilsimsa_max_similarity compare_digests ["aaaa"] ["bbbb"] ≤ 1) ∧
    (["aaaa"] = [] ∨ ["bbbb"] = [] →
      nilsimsa_max_similarity compare_digests ["aaaa"] ["bbbb"] = 0) ∧
    (∀ d ∈ ["aaaa"], d ∈ ["bbbb"] →
      nilsimsa_max_similarity compare_digests ["aaaa"] ["bbbb"] = 1) :=
  nilsimsa_max_similarity_props ["aaaa"] ["bbbb"] (by decide)

/-- C8 is false on the code: a negative requested limit parses fine and
is returned unclamped, because `min(maximum, int(s))` only clamps from
above; the effective limit -5 is not a positive in-bounds integer. -/
theorem str_to_max_int_negative_ce :
    str_to_max_int (some "-5") 100 = -5 ∧
    ¬ (0 < str_to_max_int (some "-5") 100) := by
  constructor
  · decide
  · intro h
    have heq : str_to_max_int (some "-5") 100 = -5 := by decide
    rw [heq] at h
    exact absurd h (by norm_num)

/-- C8 amended: `str_to_max_int` never raises and clamps only from
above: absent or unparseable values yield the maximum, parseable values
are capped at the maximum, but any parseable value at most the maximum
— including zero and negative values — is returned as-is, so the
effective limit need not be positive. -/
theorem str_to_max_int_clamps_only_above (maximum : Int) :
    (∀ s : Option String, str_to_max_int s maximum ≤ maximum) ∧
    (str_to_max_int none maximum = maximum) ∧
    (∀ str, pyInt str = none → str_to_max_int (some str) maximum = maximum) ∧
    (∀ str n, pyInt str = some n → n ≤ maximum →
        str_to_max_int (some str) maximum = n) := by
  refine ⟨?_, rfl, ?_, ?_⟩
  · intro s
    cases s with
    | none => simp [str_to_max_int]
    | some str =>
        simp only [str_to_max_int]
        cases hp : pyInt str with
        | none => simp [hp]
        | some n => simp [hp]
  · intro str hp
    simp [str_to_max_int, hp]
  · intro str n hp hn
    simp only [str_to_max_int]
    rw [hp]
    exact min_eq_right hn

/-- Closed witness for `str_to_max_int_clamps_only_above`. -/
theorem str_to_max_int_clamps_only_above_witness :
    str_to_max_int (some "abc") 100 = 100 ∧
    str_to_max_int (some "7") 100 = 7 ∧
    str_to_max_int (some "5000") 100 ≤ 100 :=
  ⟨(str_to_max_int_clamps_only_above 100).2.2.1 "abc" rfl,
   (str_to_max_int_clamps_only_above 100).2.2.2 "7" 7 rfl (by decide),
   (str_to_max_int_clamps_only_above 100).1 (some "5000")⟩

/-- The fold behind `streaming_ids` preserves: emitted ids are distinct,
every emitted id is recorded in `cids`, and no blacklisted id is ever
emitted. -/
theorem emitStep_fold_invariant (blacklist : List String) :
    ∀ (cs : List String) (st : List String × List String),
      st.2.Nodup → (∀ c ∈ st.2, c ∈ st.1) →
      (∀ b ∈ blacklist, b ∉ st.2) →
      (cs.foldl (emitStep blacklist) st).2.Nodup ∧
      (∀ c ∈ (cs.foldl (emitStep blacklist) st).2,
          c ∈ (cs.foldl (emitStep blacklist) st).1) ∧
      (∀ b ∈ blacklist, b ∉ (cs.foldl (emitStep blacklist) st).2) := by
  intro cs
  induction cs with
  | nil =>
      intro st h1 h2 h3
      exact ⟨h1, h2, h3⟩
  | cons cid rest ih =>
      intro st h1 h2 h3
      simp only [List.foldl_cons]
      by_cases hc : cid ∈ st.1 ∨ cid ∈ blacklist
      · have hstep : emitStep blacklist st cid = st := by
          unfold emitStep
          rw [if_pos hc]
        rw [hstep]
        exact ih st h1 h2 h3
      · have hstep : emitStep blacklist st cid =
            (cid :: st.1, st.2 ++ [cid]) := by
          unfold emitStep
          rw [if_neg hc]
        rw [hstep]
        push_neg at hc
        obtain ⟨hseen, hblack⟩ := hc
        have hnotin : cid ∉ st.2 := fun hmem => hseen (h2 cid hmem)
        refine ih _ ?_ ?_ ?_
        · simp only
          rw [List.nodup_append]
          exact ⟨h1, List.nodup_singleton cid,
            fun c hcm => by
              simp only [List.mem_singleton]
              intro hEq
              rw [hEq] at hcm
              exact hnotin hcm⟩
        · intro c hcm
          simp only at hcm ⊢
          rcases List.mem_append.mp hcm with hcm | hcm
          · exact List.mem_cons_of_mem _ (h2 c hcm)
          · simp only [List.mem_singleton] at hcm
            rw [hcm]
            exact List.mem_cons_self _ _
        · intro b hb
          simp only
          intro hmem
          rcases List.mem_append.mp hmem with hmem | hmem
          · exact h3 b hb hmem
          · simp only [List.mem_singleton] at hmem
            rw [hmem] at hb
            exact hblack hb

/-- C10: the candidate id sequence produced by
`plain_index_scan.streaming_ids` yields each id at most once across all
index scans, and never yields the query's own content id (it is in the
blacklist before scanning begins). -/
theorem streaming_ids_nodup_not_query (store : Store) (content_id : String) :
    (streaming_ids store content_id).Nodup ∧
    content_id ∉ streaming_ids store content_id := by
  unfold streaming_ids
  match store.get content_id with
  | none => exact ⟨List.nodup_nil, List.not_mem_nil _⟩
  | some query_fc =>
      have h := emitStep_fold_invariant [content_id]
        ((scanSpecs store query_fc).flatMap
          (fun p => store.index_scan p.1 p.2)) ([], [])
        List.nodup_nil (fun c hc => absurd hc (List.not_mem_nil c))
        (fun b _ hc => absurd hc (List.not_mem_nil b))
      exact ⟨h.1, h.2.2 content_id (List.mem_singleton_self content_id)⟩

end DossierWeb
